import Mathlib

/-!
# Verification of the salary-distribution pipeline (`23010599.py`)

Shallow embedding of the numeric core of the repository's script over exact
rationals (`ℚ`).  NumPy floating-point values are modelled as rationals,
decimal literals exactly; the unguarded NumPy faults (division by a zero bin
width, `np.histogram` receiving a non-positive bin count) are modelled as
`Except.error` outcomes.
-/

namespace SalaryDist

/-- Errors of the numeric pipeline.  `arithFault` models the unguarded NumPy
arithmetic fault that the source hits when the truncated bin width is zero
(`(max-min)/binw` with `binw = 0`: a divide-by-zero / NaN that poisons the
bin count).  `valueError` models `np.histogram` rejecting a non-positive bin
count.  `degenerateDistribution` is the explicit, named error the spec asks
for; it is declared so that the spec's sentence can be stated, the source
never produces it. -/
inductive PyError where
  | arithFault : PyError
  | valueError : PyError
  | degenerateDistribution : PyError
deriving DecidableEq, Repr

/-- Ascending sort of the data, as `np.percentile` sorts its input
internally.  (Any ascending sort of rationals yields the same list of
values.) -/
def sortData (l : List ℚ) : List ℚ :=
  List.insertionSort (· ≤ ·) l

/-- Model of `np.percentile(data, q)` with the default linear-interpolation method:
virtual index `v = q·(n−1)/100`, result `s[⌊v⌋] + (v−⌊v⌋)·(s[⌊v⌋+1] − s[⌊v⌋])`
on the sorted data `s`. -/
def percentile (l : List ℚ) (q : ℚ) : ℚ :=
  let s := sortData l
  let v : ℚ := q * ((l.length : ℚ) - 1) / 100
  let i : ℕ := (⌊v⌋).toNat
  let g : ℚ := v - (⌊v⌋ : ℚ)
  s.getD i 0 + g * (s.getD (i + 1) 0 - s.getD i 0)

/-- Python's `min` over the data (0 on the empty list, unreachable in the
pipeline). -/
def listMin : List ℚ → ℚ
  | [] => 0
  | x :: xs => xs.foldl min x

/-- Python's `max` over the data (0 on the empty list, unreachable in the
pipeline). -/
def listMax : List ℚ → ℚ
  | [] => 0
  | x :: xs => xs.foldl max x

/-- Truncation toward zero of `c / n^(1/3)` for `c ≥ 0`, `n ≥ 1`: the
greatest `k` with `k·n^(1/3) ≤ c`, i.e. (cubing, all sides nonnegative) the
greatest `k` with `k³·n ≤ c³`.  This is exactly `int(c / n**(1/3))` of the
source in exact real arithmetic; the cubed form keeps it inside `ℚ`. -/
def truncDivCbrtNat (c : ℚ) (n : ℕ) : ℕ :=
  Nat.findGreatest (fun k => (k : ℚ) ^ 3 * (n : ℚ) ≤ c ^ 3) (⌈c⌉.toNat)

/-- Truncation toward zero `int(c / n**(1/3))` for either sign of `c`. -/
def truncDivCbrt (c : ℚ) (n : ℕ) : ℤ :=
  if 0 ≤ c then (truncDivCbrtNat c n : ℤ) else -(truncDivCbrtNat (-c) n : ℤ)

/-- Embedding of `calculate_bin_size` (Freedman–Diaconis rule), lines 29–57 of the source:
`iqr = np.percentile(df_bin, 75) - np.percentile(df_bin, 25)`,
`binw = int(2 * iqr / (len(df_bin) ** (1/3)))`,
`bins = np.ceil((max(df_bin) - min(df_bin)) / binw).astype(int)`.
The source performs the final division unguarded; when `binw = 0` the NumPy
arithmetic faults (modelled as `.error .arithFault`). -/
def calculate_bin_size (df_bin : List ℚ) : Except PyError ℤ :=
  let iqr : ℚ := percentile df_bin 75 - percentile df_bin 25
  let binw : ℤ := truncDivCbrt (2 * iqr) df_bin.length
  if binw = 0 then .error .arithFault
  else .ok ⌈(listMax df_bin - listMin df_bin) / (binw : ℚ)⌉

/-- The `k+1` uniformly spaced bin edges `np.histogram` uses for `k` bins:
`edge_j = min + j·(max−min)/k`. -/
def histEdges (dmin dmax : ℚ) (k : ℕ) : List ℚ :=
  (List.range (k + 1)).map (fun (j : ℕ) => dmin + (j : ℚ) * (dmax - dmin) / (k : ℚ))

/-- Membership of a value in bin `j` of the edge list `e`: each bin is the
half-open interval `[e_j, e_{j+1})`, except the last bin which is closed
(`np.histogram` semantics). -/
def inBin (e : List ℚ) (j : ℕ) (x : ℚ) : Bool :=
  decide (e.getD j 0 ≤ x) &&
    (if j + 2 < e.length then decide (x < e.getD (j + 1) 0)
     else decide (x ≤ e.getD (j + 1) 0))

/-- The per-bin counts of `np.histogram(data, bins = k)` over the range
`[min data, max data]`. -/
def histCounts (data : List ℚ) (k : ℕ) : List ℕ :=
  let e := histEdges (listMin data) (listMax data) k
  (List.range k).map (fun j => data.countP (fun x => inBin e j x))

/-- Model of `np.cumsum`: running (prefix) sums of a list. -/
def cumsum (l : List ℚ) : List ℚ :=
  (l.scanl (· + ·) 0).tail

/-- The six arrays returned by `calculate_distribution`. -/
structure Distribution where
  ohist : List ℕ
  oedge : List ℚ
  xdst : List ℚ
  wdst : List ℚ
  ydst : List ℚ
  cdst : List ℚ
deriving DecidableEq, Repr

/-- The array computations of `calculate_distribution` (lines 80–92 of the
source) once the bin count `k` is known:
`ohist, oedge = np.histogram(data, bins=k)`;
`xdst = (oedge[1:] + oedge[:-1]) / 2`; `wdst = oedge[1:] - oedge[:-1]`;
`ydst = ohist / np.sum(ohist)`; `cdst = np.cumsum(ydst)`. -/
def distributionArrays (data : List ℚ) (k : ℕ) : Distribution :=
  let oedge := histEdges (listMin data) (listMax data) k
  let ohist := histCounts data k
  let xdst := List.zipWith (fun a b => (a + b) / 2) (oedge.drop 1) oedge
  let wdst := List.zipWith (fun a b => a - b) (oedge.drop 1) oedge
  let ydst := ohist.map (fun (c : ℕ) => (c : ℚ) / ((ohist.sum : ℕ) : ℚ))
  let cdst := cumsum ydst
  ⟨ohist, oedge, xdst, wdst, ydst, cdst⟩

/-- Embedding of `calculate_distribution`, lines 60–94 of the source:
bin count from `calculate_bin_size` (errors propagate), then the array
computations; `np.histogram` raises `ValueError` on a non-positive bin
count, modelled as `.error .valueError`. -/
def calculate_distribution (data : List ℚ) : Except PyError Distribution :=
  match calculate_bin_size data with
  | .error e => .error e
  | .ok nb =>
    if nb ≤ 0 then .error .valueError
    else .ok (distributionArrays data nb.toNat)

/-- Round half to even, the tie rule of `np.round` / Python `round`. -/
def roundHalfEven (q : ℚ) : ℤ :=
  if q - (⌊q⌋ : ℚ) = 1 / 2 then (if ⌊q⌋ % 2 = 0 then ⌊q⌋ else ⌊q⌋ + 1)
  else ⌊q + 1 / 2⌋

/-- Rounding `.round(2)` to 2 decimal places (ties to even). -/
def round2 (q : ℚ) : ℚ :=
  (roundHalfEven (q * 100) : ℚ) / 100

/-- The weighted mean `np.sum(xdst * ydst)` before the `.round(2)` of
line 196: the sum over bins of bin center times bin probability. -/
def weightedMean (d : Distribution) : ℚ :=
  (List.zipWith (· * ·) d.xdst d.ydst).sum

/-- The scalar statistics computed by `main`, lines 193–204 of the source:
`xmean = np.sum(xdst * ydst).round(2)`, `xmean08 = (xmean * 0.8).round(2)`,
`xmean12 = (xmean * 1.2).round(2)`. -/
def pipelineStats (data : List ℚ) : Except PyError (ℚ × ℚ × ℚ) :=
  (calculate_distribution data).map (fun d =>
    let xmean := round2 (weightedMean d)
    (xmean, round2 (xmean * (8 / 10)), round2 (xmean * (12 / 10))))

/-- Line 116 of the source, `bar_width = xdst[1] - xdst[0]`: the renderer's
bar width, defined only when `xdst` has at least two entries; the Python
index access raises `IndexError` otherwise (modelled as `none`). -/
def bar_width (xdst : List ℚ) : Option ℚ :=
  match xdst with
  | a :: b :: _ => some (b - a)
  | _ => none

/-! ## Basic facts about `listMin`, `listMax` and `histEdges` -/

lemma foldl_min_le (l : List ℚ) (a : ℚ) : l.foldl min a ≤ a := by
  induction l generalizing a with
  | nil => simp
  | cons x xs ih => exact le_trans (ih (min a x)) (min_le_left a x)

lemma foldl_min_le_of_mem {l : List ℚ} {x : ℚ} (h : x ∈ l) (a : ℚ) :
    l.foldl min a ≤ x := by
  induction l generalizing a with
  | nil => cases h
  | cons y ys ih =>
    rcases List.mem_cons.mp h with rfl | h'
    · exact le_trans (foldl_min_le ys (min a x)) (min_le_right a x)
    · exact ih h' (min a y)

lemma le_foldl_max (l : List ℚ) (a : ℚ) : a ≤ l.foldl max a := by
  induction l generalizing a with
  | nil => simp
  | cons x xs ih => exact le_trans (le_max_left a x) (ih (max a x))

lemma le_foldl_max_of_mem {l : List ℚ} {x : ℚ} (h : x ∈ l) (a : ℚ) :
    x ≤ l.foldl max a := by
  induction l generalizing a with
  | nil => cases h
  | cons y ys ih =>
    rcases List.mem_cons.mp h with rfl | h'
    · exact le_trans (le_max_right a x) (le_foldl_max ys (max a x))
    · exact ih h' (max a y)

lemma listMin_le {l : List ℚ} {x : ℚ} (h : x ∈ l) : listMin l ≤ x := by
  cases l with
  | nil => cases h
  | cons y ys =>
    rcases List.mem_cons.mp h with rfl | h'
    · exact foldl_min_le ys x
    · exact foldl_min_le_of_mem h' y

lemma le_listMax {l : List ℚ} {x : ℚ} (h : x ∈ l) : x ≤ listMax l := by
  cases l with
  | nil => cases h
  | cons y ys =>
    rcases List.mem_cons.mp h with rfl | h'
    · exact le_foldl_max ys x
    · exact le_foldl_max_of_mem h' y

lemma listMin_le_listMax (l : List ℚ) : listMin l ≤ listMax l := by
  cases l with
  | nil => exact le_refl 0
  | cons y ys =>
    exact le_trans (listMin_le (List.mem_cons_self y ys))
      (le_listMax (List.mem_cons_self y ys))

lemma histEdges_length (dmin dmax : ℚ) (k : ℕ) :
    (histEdges dmin dmax k).length = k + 1 := by
  rw [histEdges, List.length_map, List.length_range]

lemma histEdges_getD (dmin dmax : ℚ) (k : ℕ) {j : ℕ} (h : j ≤ k) :
    (histEdges dmin dmax k).getD j 0
      = dmin + (j : ℚ) * (dmax - dmin) / (k : ℚ) := by
  have hj : j < k + 1 := Nat.lt_succ_of_le h
  rw [histEdges, List.getD_eq_getElem?_getD, List.getElem?_map,
    List.getElem?_range hj, Option.map_some', Option.getD_some]

lemma histEdges_getD_strictMono {dmin dmax : ℚ} (hd : dmin < dmax)
    {k j j' : ℕ} (hjj : j < j') (hj' : j' ≤ k) :
    (histEdges dmin dmax k).getD j 0 < (histEdges dmin dmax k).getD j' 0 := by
  rw [histEdges_getD dmin dmax k (le_of_lt (lt_of_lt_of_le hjj hj')),
    histEdges_getD dmin dmax k hj']
  have hk : 0 < (k : ℚ) := by
    have : 0 < k := lt_of_le_of_lt (Nat.zero_le j) (lt_of_lt_of_le hjj hj')
    exact_mod_cast this
  have hjq : (j : ℚ) < (j' : ℚ) := by exact_mod_cast hjj
  have hΔ : 0 < dmax - dmin := sub_pos.mpr hd
  have hmul : (j : ℚ) * (dmax - dmin) < (j' : ℚ) * (dmax - dmin) :=
    mul_lt_mul_of_pos_right hjq hΔ
  exact add_lt_add_left ((div_lt_div_iff_of_pos_right hk).mpr hmul) dmin

lemma histEdges_getD_mono {dmin dmax : ℚ} (hd : dmin ≤ dmax)
    {k j j' : ℕ} (hjj : j ≤ j') (hj' : j' ≤ k) :
    (histEdges dmin dmax k).getD j 0 ≤ (histEdges dmin dmax k).getD j' 0 := by
  rw [histEdges_getD dmin dmax k (le_trans hjj hj'), histEdges_getD dmin dmax k hj']
  have hjq : (j : ℚ) ≤ (j' : ℚ) := by exact_mod_cast hjj
  have hΔ : 0 ≤ dmax - dmin := sub_nonneg.mpr hd
  rcases Nat.eq_zero_or_pos k with hk | hk
  · subst hk; simp
  · have hkq : 0 < (k : ℚ) := by exact_mod_cast hk
    have hmul : (j : ℚ) * (dmax - dmin) ≤ (j' : ℚ) * (dmax - dmin) :=
      mul_le_mul_of_nonneg_right hjq hΔ
    exact add_le_add_left ((div_le_div_iff_of_pos_right hkq).mpr hmul) dmin

lemma histCounts_length (data : List ℚ) (k : ℕ) :
    (histCounts data k).length = k := by
  simp [histCounts]

/-! ## Inversion of the success paths -/

lemma calculate_bin_size_ok {data : List ℚ} {nb : ℤ}
    (h : calculate_bin_size data = .ok nb) :
    truncDivCbrt (2 * (percentile data 75 - percentile data 25)) data.length ≠ 0 ∧
    nb = ⌈(listMax data - listMin data) /
      ((truncDivCbrt (2 * (percentile data 75 - percentile data 25))
        data.length : ℤ) : ℚ)⌉ := by
  rw [calculate_bin_size] at h
  split_ifs at h with hb
  cases h
  exact ⟨hb, rfl⟩

lemma calculate_bin_size_error_of_binw_zero {data : List ℚ}
    (h : truncDivCbrt (2 * (percentile data 75 - percentile data 25))
      data.length = 0) :
    calculate_bin_size data = .error .arithFault := by
  rw [calculate_bin_size]
  simp [h]

lemma distributionArrays_ohist (data : List ℚ) (k : ℕ) :
    (distributionArrays data k).ohist = histCounts data k := rfl

lemma distributionArrays_oedge (data : List ℚ) (k : ℕ) :
    (distributionArrays data k).oedge = histEdges (listMin data) (listMax data) k := rfl

lemma distributionArrays_xdst (data : List ℚ) (k : ℕ) :
    (distributionArrays data k).xdst
      = List.zipWith (fun a b => (a + b) / 2)
        ((distributionArrays data k).oedge.drop 1) (distributionArrays data k).oedge := rfl

lemma distributionArrays_wdst (data : List ℚ) (k : ℕ) :
    (distributionArrays data k).wdst
      = List.zipWith (fun a b => a - b)
        ((distributionArrays data k).oedge.drop 1) (distributionArrays data k).oedge := rfl

lemma distributionArrays_ydst (data : List ℚ) (k : ℕ) :
    (distributionArrays data k).ydst
      = (distributionArrays data k).ohist.map
        (fun (c : ℕ) => (c : ℚ) / (((distributionArrays data k).ohist.sum : ℕ) : ℚ)) := rfl

lemma distributionArrays_cdst (data : List ℚ) (k : ℕ) :
    (distributionArrays data k).cdst = cumsum (distributionArrays data k).ydst := rfl

set_option maxHeartbeats 2000000 in
lemma calculate_distribution_of_error {data : List ℚ} {e : PyError}
    (hbs : calculate_bin_size data = .error e) :
    calculate_distribution data = .error e := by
  rw [calculate_distribution, hbs]

set_option maxHeartbeats 2000000 in
lemma calculate_distribution_of_ok {data : List ℚ} {nb : ℤ}
    (hbs : calculate_bin_size data = .ok nb) :
    calculate_distribution data
      = if nb ≤ 0 then .error .valueError
        else .ok (distributionArrays data nb.toNat) := by
  rw [calculate_distribution, hbs]

lemma calculate_distribution_ok {data : List ℚ} {d : Distribution}
    (h : calculate_distribution data = .ok d) :
    ∃ nb : ℤ, calculate_bin_size data = .ok nb ∧ 0 < nb ∧
      d = distributionArrays data nb.toNat := by
  cases hbs : calculate_bin_size data with
  | error e =>
    rw [calculate_distribution_of_error hbs] at h
    cases h
  | ok nb =>
    rw [calculate_distribution_of_ok hbs] at h
    split_ifs at h with hnb
    cases h
    exact ⟨nb, rfl, by omega, rfl⟩

/-! ## The histogram bins partition the data range -/

lemma inBin_iff {dmin dmax : ℚ} {k j : ℕ} (hj : j < k) (x : ℚ) :
    inBin (histEdges dmin dmax k) j x = true ↔
      ((histEdges dmin dmax k).getD j 0 ≤ x ∧
        (if j + 1 < k then x < (histEdges dmin dmax k).getD (j + 1) 0
         else x ≤ (histEdges dmin dmax k).getD (j + 1) 0)) := by
  rw [inBin, histEdges_length]
  by_cases hc : j + 1 < k
  · simp [show j + 2 < k + 1 from by omega, hc]
  · simp [show ¬(j + 2 < k + 1) from by omega, hc]

lemma inBin_disjoint {dmin dmax : ℚ} (hd : dmin < dmax) {k j j' : ℕ}
    (hjj : j < j') (hj' : j' < k) {x : ℚ}
    (h1 : inBin (histEdges dmin dmax k) j x = true)
    (h2 : inBin (histEdges dmin dmax k) j' x = true) : False := by
  have hj : j < k := lt_trans hjj hj'
  have hj1 : j + 1 < k := by omega
  have hb1 := (inBin_iff hj x).mp h1
  have hb2 := (inBin_iff hj' x).mp h2
  rw [if_pos hj1] at hb1
  have hlt : x < (histEdges dmin dmax k).getD (j + 1) 0 := hb1.2
  have hle : (histEdges dmin dmax k).getD j' 0 ≤ x := hb2.1
  have hmono : (histEdges dmin dmax k).getD (j + 1) 0
      ≤ (histEdges dmin dmax k).getD j' 0 :=
    histEdges_getD_mono (le_of_lt hd) (by omega) (le_of_lt hj')
  exact absurd (lt_of_lt_of_le hlt (le_trans hmono hle)) (lt_irrefl x)

lemma inBin_exists {dmin dmax : ℚ} (hd : dmin < dmax) {k : ℕ} (hk : 1 ≤ k)
    {x : ℚ} (hx1 : dmin ≤ x) (hx2 : x ≤ dmax) :
    ∃ j₀, j₀ < k ∧ inBin (histEdges dmin dmax k) j₀ x = true := by
  have hΔ : 0 < dmax - dmin := sub_pos.mpr hd
  have hkq : 0 < (k : ℚ) := by exact_mod_cast hk
  set t : ℚ := (x - dmin) * (k : ℚ) / (dmax - dmin) with ht_def
  have ht0 : 0 ≤ t :=
    div_nonneg (mul_nonneg (sub_nonneg.mpr hx1) (le_of_lt hkq)) (le_of_lt hΔ)
  have htk : t ≤ (k : ℚ) := by
    rw [ht_def, div_le_iff hΔ]
    have hxd : x - dmin ≤ dmax - dmin := by linarith
    calc (x - dmin) * (k : ℚ) ≤ (dmax - dmin) * (k : ℚ) :=
          mul_le_mul_of_nonneg_right hxd (le_of_lt hkq)
      _ = (k : ℚ) * (dmax - dmin) := mul_comm _ _
  have hfl0 : 0 ≤ ⌊t⌋ := Int.floor_nonneg.mpr ht0
  have hcast : ((⌊t⌋.toNat : ℕ) : ℚ) = ((⌊t⌋ : ℤ) : ℚ) := by
    exact_mod_cast congrArg (fun z : ℤ => (z : ℚ)) (Int.toNat_of_nonneg hfl0)
  refine ⟨min (⌊t⌋.toNat) (k - 1), by omega, ?_⟩
  set j₀ : ℕ := min (⌊t⌋.toNat) (k - 1) with hj₀_def
  have hj₀k : j₀ < k := by omega
  rw [inBin_iff hj₀k x]
  constructor
  · -- lower edge of bin j₀ is at most x
    rw [histEdges_getD dmin dmax k (le_of_lt hj₀k)]
    have hj₀t : (j₀ : ℚ) ≤ t := by
      have h1 : (j₀ : ℚ) ≤ ((⌊t⌋.toNat : ℕ) : ℚ) := by
        exact_mod_cast min_le_left (⌊t⌋.toNat) (k - 1)
      exact le_trans h1 (le_trans (le_of_eq hcast) (Int.floor_le t))
    have hmul : (j₀ : ℚ) * (dmax - dmin) ≤ (x - dmin) * (k : ℚ) := by
      rw [ht_def, le_div_iff hΔ] at hj₀t
      exact hj₀t
    have hdiv : (j₀ : ℚ) * (dmax - dmin) / (k : ℚ) ≤ x - dmin := by
      rw [div_le_iff hkq]
      exact hmul
    linarith
  · -- upper edge of bin j₀ bounds x
    split_ifs with hj1
    · have hj₀eq : j₀ = ⌊t⌋.toNat := by omega
      have htj : t < (j₀ : ℚ) + 1 := by
        rw [hj₀eq]
        calc t < ((⌊t⌋ : ℤ) : ℚ) + 1 := Int.lt_floor_add_one t
          _ = ((⌊t⌋.toNat : ℕ) : ℚ) + 1 := by rw [hcast]
      rw [histEdges_getD dmin dmax k (by omega : j₀ + 1 ≤ k)]
      have h1 : (x - dmin) * (k : ℚ) < ((j₀ : ℚ) + 1) * (dmax - dmin) := by
        rw [ht_def, div_lt_iff hΔ] at htj
        exact htj
      have h2 : x - dmin < ((j₀ : ℚ) + 1) * (dmax - dmin) / (k : ℚ) := by
        rw [lt_div_iff hkq]
        exact h1
      push_cast
      linarith
    · have hj₀eq : j₀ + 1 = k := by omega
      rw [histEdges_getD dmin dmax k (by omega : j₀ + 1 ≤ k), hj₀eq]
      have hck : (k : ℚ) * (dmax - dmin) / (k : ℚ) = dmax - dmin :=
        mul_div_cancel_left₀ _ (ne_of_gt hkq)
      rw [hck]
      linarith

lemma sum_inBin_indicator {dmin dmax : ℚ} (hd : dmin < dmax) {k : ℕ}
    (hk : 1 ≤ k) {x : ℚ} (hx1 : dmin ≤ x) (hx2 : x ≤ dmax) :
    (∑ j ∈ Finset.range k,
      if inBin (histEdges dmin dmax k) j x = true then 1 else 0) = 1 := by
  obtain ⟨j₀, hj₀k, hin⟩ := inBin_exists hd hk hx1 hx2
  have huniq : ∀ j < k, inBin (histEdges dmin dmax k) j x = true → j = j₀ := by
    intro j hj hj_in
    rcases lt_trichotomy j j₀ with h | h | h
    · exact absurd (inBin_disjoint hd h hj₀k hj_in hin) not_false
    · exact h
    · exact absurd (inBin_disjoint hd h hj hin hj_in) not_false
  have hcong : ∀ j ∈ Finset.range k,
      (if inBin (histEdges dmin dmax k) j x = true then (1 : ℕ) else 0)
        = if j = j₀ then 1 else 0 := by
    intro j hj
    by_cases hin' : inBin (histEdges dmin dmax k) j x = true
    · rw [if_pos hin', if_pos (huniq j (Finset.mem_range.mp hj) hin')]
    · rw [if_neg hin', if_neg]
      intro hje
      exact hin' (hje ▸ hin)
  rw [Finset.sum_congr rfl hcong, Finset.sum_ite_eq' (Finset.range k) j₀ (fun _ => 1),
    if_pos (Finset.mem_range.mpr hj₀k)]

lemma sum_countP_eq_length {k : ℕ} (P : ℕ → ℚ → Bool) :
    ∀ (l : List ℚ),
      (∀ x ∈ l, (∑ j ∈ Finset.range k, if P j x = true then 1 else 0) = 1) →
      (∑ j ∈ Finset.range k, l.countP (fun x => P j x)) = l.length
  | [], _ => by simp
  | x :: l, h => by
    have ih := sum_countP_eq_length P l (fun y hy => h y (List.mem_cons_of_mem x hy))
    have hx := h x (List.mem_cons_self x l)
    simp only [List.countP_cons, List.length_cons]
    rw [Finset.sum_add_distrib, ih, hx]

lemma sum_histCounts {data : List ℚ} {k : ℕ} (hk : 1 ≤ k)
    (hd : listMin data < listMax data) :
    (histCounts data k).sum = data.length := by
  have hbridge : (histCounts data k).sum
      = ∑ j ∈ Finset.range k,
        data.countP (fun x => inBin (histEdges (listMin data) (listMax data) k) j x) := rfl
  rw [hbridge]
  exact sum_countP_eq_length _ data
    (fun x hx => sum_inBin_indicator hd hk (listMin_le hx) (le_listMax hx))

/-! ## Consequences of a successful bin-size computation -/

lemma bin_size_pos_facts {data : List ℚ} {nb : ℤ}
    (hbs : calculate_bin_size data = .ok nb) (hnb : 0 < nb) :
    listMin data < listMax data ∧ data ≠ [] ∧
      0 < truncDivCbrt (2 * (percentile data 75 - percentile data 25))
        data.length := by
  obtain ⟨hb0, hnb_eq⟩ := calculate_bin_size_ok hbs
  have hpos : 0 < (listMax data - listMin data) /
      ((truncDivCbrt (2 * (percentile data 75 - percentile data 25))
        data.length : ℤ) : ℚ) := by
    rw [hnb_eq] at hnb
    exact Int.ceil_pos.mp hnb
  have hΔ0 : 0 ≤ listMax data - listMin data :=
    sub_nonneg.mpr (listMin_le_listMax data)
  rcases div_pos_iff.mp hpos with ⟨h1, h2⟩ | ⟨h1, h2⟩
  · refine ⟨by linarith, ?_, by exact_mod_cast h2⟩
    intro hnil
    rw [hnil] at h1
    norm_num [listMin, listMax] at h1
  · linarith

lemma dist_ok_facts {data : List ℚ} {d : Distribution}
    (h : calculate_distribution data = .ok d) :
    ∃ k : ℕ, 1 ≤ k ∧ d = distributionArrays data k ∧
      listMin data < listMax data ∧ data ≠ [] := by
  obtain ⟨nb, hbs, hnb, hd⟩ := calculate_distribution_ok h
  obtain ⟨hmm, hne, _⟩ := bin_size_pos_facts hbs hnb
  exact ⟨nb.toNat, by omega, hd, hmm, hne⟩

/-! ## The probability and cumulative arrays -/

lemma sum_map_div_cast (l : List ℕ) (T : ℚ) :
    (l.map (fun (c : ℕ) => (c : ℚ) / T)).sum = ((l.sum : ℕ) : ℚ) / T := by
  induction l with
  | nil => simp
  | cons a l ih =>
    simp only [List.map_cons, List.sum_cons, ih]
    push_cast
    rw [add_div]

lemma distributionArrays_ydst_sum {data : List ℚ} {k : ℕ} (hk : 1 ≤ k)
    (hd : listMin data < listMax data) (hne : data ≠ []) :
    (distributionArrays data k).ydst.sum = 1 := by
  rw [distributionArrays_ydst, distributionArrays_ohist, sum_map_div_cast,
    sum_histCounts hk hd]
  have hlen : data.length ≠ 0 := fun h0 => hne (List.length_eq_zero.mp h0)
  have : (data.length : ℚ) ≠ 0 := by exact_mod_cast hlen
  exact div_self this

lemma distributionArrays_ydst_nonneg (data : List ℚ) (k : ℕ) :
    ∀ y ∈ (distributionArrays data k).ydst, 0 ≤ y := by
  rw [distributionArrays_ydst]
  intro y hy
  obtain ⟨c, _, rfl⟩ := List.mem_map.mp hy
  positivity

lemma distributionArrays_ydst_length (data : List ℚ) (k : ℕ) :
    (distributionArrays data k).ydst.length = k := by
  rw [distributionArrays_ydst, List.length_map, distributionArrays_ohist,
    histCounts_length]

lemma distributionArrays_xdst_length (data : List ℚ) (k : ℕ) :
    (distributionArrays data k).xdst.length = k := by
  rw [distributionArrays_xdst, List.length_zipWith, List.length_drop,
    distributionArrays_oedge, histEdges_length]
  omega

lemma scanl_add_getD :
    ∀ (l : List ℚ) (a : ℚ) (j : ℕ), j ≤ l.length →
      (l.scanl (· + ·) a).getD j 0 = a + (l.take j).sum
  | [], a, 0, _ => by simp [List.scanl]
  | [], a, j + 1, h => by simp at h
  | x :: l, a, 0, _ => by simp [List.scanl]
  | x :: l, a, j + 1, h => by
    have ih := scanl_add_getD l (a + x) j (by simpa using h)
    simp only [List.scanl, List.getD_cons_succ, List.take_succ_cons,
      List.sum_cons, ih]
    ring

lemma cumsum_length (l : List ℚ) : (cumsum l).length = l.length := by
  simp [cumsum, List.length_scanl]

lemma cumsum_getD {l : List ℚ} {j : ℕ} (h : j < l.length) :
    (cumsum l).getD j 0 = (l.take (j + 1)).sum := by
  cases l with
  | nil => simp at h
  | cons x l' =>
    have hj : j ≤ l'.length := by
      simpa [Nat.lt_succ_iff] using h
    show (List.scanl (· + ·) (0 + x) l').getD j 0 = ((x :: l').take (j + 1)).sum
    rw [scanl_add_getD l' (0 + x) j hj, List.take_succ_cons, List.sum_cons]
    ring

lemma sum_take_mono {l : List ℚ} (h0 : ∀ x ∈ l, 0 ≤ x) {a b : ℕ} (hab : a ≤ b) :
    (l.take a).sum ≤ (l.take b).sum := by
  have hsplit := List.sum_take_add_sum_drop (l.take b) a
  rw [List.take_take, min_eq_left hab] at hsplit
  have hnn : 0 ≤ ((l.take b).drop a).sum :=
    List.sum_nonneg (fun x hx =>
      h0 x (List.take_subset b l (List.drop_subset a (l.take b) hx)))
  linarith

lemma cumsum_getLast {l : List ℚ} (h : l ≠ []) :
    (cumsum l).getLast? = some l.sum := by
  have hlen : (cumsum l).length = l.length := cumsum_length l
  have hpos : 0 < l.length := List.length_pos.mpr h
  have hidx : (cumsum l).length - 1 < (cumsum l).length := by omega
  rw [List.getLast?_eq_getElem?, List.getElem?_eq_getElem hidx]
  have hgd : (cumsum l).getD ((cumsum l).length - 1) 0
      = (l.take ((cumsum l).length - 1 + 1)).sum := by
    exact cumsum_getD (by omega)
  rw [List.getD_eq_getElem _ _ hidx] at hgd
  rw [hgd, hlen]
  have : l.length - 1 + 1 = l.length := by omega
  rw [this, List.take_length]

/-! ## Bounds on weighted sums -/

lemma mem_zipWith {f : ℚ → ℚ → ℚ} :
    ∀ {a b : List ℚ} {z : ℚ}, z ∈ List.zipWith f a b →
      ∃ x ∈ a, ∃ y ∈ b, z = f x y
  | [], _, _, h => by simp at h
  | _ :: _, [], _, h => by simp at h
  | x :: a, y :: b, z, h => by
    rw [List.zipWith_cons_cons] at h
    rcases List.mem_cons.mp h with rfl | h'
    · exact ⟨x, List.mem_cons_self x a, y, List.mem_cons_self y b, rfl⟩
    · obtain ⟨x', hx', y', hy', rfl⟩ := mem_zipWith h'
      exact ⟨x', List.mem_cons_of_mem x hx', y', List.mem_cons_of_mem y hy', rfl⟩

lemma histEdges_mem_bounds {dmin dmax : ℚ} (hd : dmin ≤ dmax) {k : ℕ}
    (hk : 1 ≤ k) : ∀ z ∈ histEdges dmin dmax k, dmin ≤ z ∧ z ≤ dmax := by
  intro z hz
  rw [histEdges] at hz
  obtain ⟨j, hj, rfl⟩ := List.mem_map.mp hz
  have hjk : j ≤ k := by
    have := List.mem_range.mp hj
    omega
  have h0 : (histEdges dmin dmax k).getD 0 0 ≤ (histEdges dmin dmax k).getD j 0 :=
    histEdges_getD_mono hd (Nat.zero_le j) hjk
  have hk' : (histEdges dmin dmax k).getD j 0 ≤ (histEdges dmin dmax k).getD k 0 :=
    histEdges_getD_mono hd hjk (le_refl k)
  rw [histEdges_getD dmin dmax k (Nat.zero_le k), histEdges_getD dmin dmax k hjk,
    histEdges_getD dmin dmax k (le_refl k)] at *
  have hkq : (k : ℚ) ≠ 0 := by
    have : 0 < k := hk
    exact_mod_cast Nat.pos_iff_ne_zero.mp this
  rw [mul_div_assoc, mul_div_assoc] at *
  constructor
  · have : (0 : ℚ) ≤ (j : ℚ) * ((dmax - dmin) / (k : ℚ)) := by
      have hΔ : 0 ≤ dmax - dmin := sub_nonneg.mpr hd
      positivity
    linarith
  · have hj' : (j : ℚ) ≤ (k : ℚ) := by exact_mod_cast hjk
    have hΔ : 0 ≤ (dmax - dmin) / (k : ℚ) := by
      have : 0 ≤ dmax - dmin := sub_nonneg.mpr hd
      positivity
    have h1 : (j : ℚ) * ((dmax - dmin) / (k : ℚ))
        ≤ (k : ℚ) * ((dmax - dmin) / (k : ℚ)) :=
      mul_le_mul_of_nonneg_right hj' hΔ
    have h2 : (k : ℚ) * ((dmax - dmin) / (k : ℚ)) = dmax - dmin := by
      field_simp
    linarith

lemma zipWith_mul_sum_bounds (lo hi : ℚ) :
    ∀ (c y : List ℚ), c.length = y.length →
      (∀ a ∈ c, lo ≤ a ∧ a ≤ hi) → (∀ b ∈ y, 0 ≤ b) →
      lo * y.sum ≤ (List.zipWith (· * ·) c y).sum ∧
        (List.zipWith (· * ·) c y).sum ≤ hi * y.sum
  | [], [], _, _, _ => by simp
  | [], b :: y, h, _, _ => by simp at h
  | a :: c, [], h, _, _ => by simp at h
  | a :: c, b :: y, h, hc, hy => by
    obtain ⟨ih1, ih2⟩ := zipWith_mul_sum_bounds lo hi c y (by simpa using h)
      (fun z hz => hc z (List.mem_cons_of_mem a hz))
      (fun z hz => hy z (List.mem_cons_of_mem b hz))
    have ha := hc a (List.mem_cons_self a c)
    have hb := hy b (List.mem_cons_self b y)
    simp only [List.zipWith_cons_cons, List.sum_cons]
    constructor
    · rw [mul_add]
      exact add_le_add (mul_le_mul_of_nonneg_right ha.1 hb) ih1
    · rw [mul_add]
      exact add_le_add (mul_le_mul_of_nonneg_right ha.2 hb) ih2

lemma zipWith_mul_sum_eq_finset :
    ∀ (c y : List ℚ), c.length = y.length →
      (List.zipWith (· * ·) c y).sum
        = ∑ j ∈ Finset.range c.length, c.getD j 0 * y.getD j 0
  | [], [], _ => by simp
  | [], b :: y, h => by simp at h
  | a :: c, [], h => by simp at h
  | a :: c, b :: y, h => by
    rw [List.zipWith_cons_cons, List.sum_cons,
      zipWith_mul_sum_eq_finset c y (by simpa using h), List.length_cons,
      Finset.sum_range_succ']
    simp only [List.getD_cons_succ, List.getD_cons_zero]
    ring

/-! ## Facts about `sortData` and `percentile` -/

lemma sortData_length (l : List ℚ) : (sortData l).length = l.length :=
  (List.perm_insertionSort (· ≤ ·) l).length_eq

lemma sortData_sorted (l : List ℚ) : List.Sorted (· ≤ ·) (sortData l) :=
  List.sorted_insertionSort (· ≤ ·) l

lemma sortData_mem {l : List ℚ} {x : ℚ} : x ∈ sortData l ↔ x ∈ l :=
  (List.perm_insertionSort (· ≤ ·) l).mem_iff

lemma getD_of_all_eq {s : List ℚ} {c : ℚ} (h : ∀ x ∈ s, x = c) {i : ℕ}
    (hi : i < s.length) : s.getD i 0 = c := by
  rw [List.getD_eq_getElem s 0 hi]
  exact h _ (List.getElem_mem hi)

lemma sorted_getD_mono {s : List ℚ} (hs : List.Sorted (· ≤ ·) s) {a b : ℕ}
    (hab : a ≤ b) (hb : b < s.length) : s.getD a 0 ≤ s.getD b 0 := by
  rcases eq_or_lt_of_le hab with rfl | hab'
  · exact le_refl _
  · rw [List.getD_eq_getElem s 0 (lt_trans hab' hb), List.getD_eq_getElem s 0 hb]
    exact List.pairwise_iff_getElem.mp hs a b (lt_trans hab' hb) hb hab'

/-- Monotone linear interpolation at sorted indices: the quantity
`s[⌊v⌋] + (v−⌊v⌋)·(s[⌊v⌋+1] − s[⌊v⌋])` is monotone in `v` on `[0, n−1]`
for a sorted list `s`. -/
lemma interp_mono {s : List ℚ} (hs : List.Sorted (· ≤ ·) s) {v v' : ℚ}
    (hv0 : 0 ≤ v) (hvv : v ≤ v') (hv1 : v' ≤ (s.length : ℚ) - 1) :
    s.getD (⌊v⌋.toNat) 0
        + (v - (⌊v⌋ : ℚ)) * (s.getD (⌊v⌋.toNat + 1) 0 - s.getD (⌊v⌋.toNat) 0)
      ≤ s.getD (⌊v'⌋.toNat) 0
        + (v' - (⌊v'⌋ : ℚ)) * (s.getD (⌊v'⌋.toNat + 1) 0 - s.getD (⌊v'⌋.toNat) 0) := by
  have hv'0 : 0 ≤ v' := le_trans hv0 hvv
  have hfl0 : 0 ≤ ⌊v⌋ := Int.floor_nonneg.mpr hv0
  have hfl0' : 0 ≤ ⌊v'⌋ := Int.floor_nonneg.mpr hv'0
  have hcast : ((⌊v⌋.toNat : ℕ) : ℤ) = ⌊v⌋ := Int.toNat_of_nonneg hfl0
  have hcast' : ((⌊v'⌋.toNat : ℕ) : ℤ) = ⌊v'⌋ := Int.toNat_of_nonneg hfl0'
  have hn1 : (1 : ℚ) ≤ (s.length : ℚ) := by linarith
  have hn : 1 ≤ s.length := by exact_mod_cast hn1
  have hfl'top : (⌊v'⌋ : ℤ) ≤ (s.length : ℤ) - 1 := by
    rw [Int.floor_le_iff]
    push_cast
    linarith
  have hi'n : ⌊v'⌋.toNat < s.length := by omega
  have hii' : ⌊v⌋.toNat ≤ ⌊v'⌋.toNat := Int.toNat_le_toNat (Int.floor_le_floor hvv)
  have hg0 : 0 ≤ v - (⌊v⌋ : ℚ) := by linarith [Int.floor_le v]
  have hg1 : v - (⌊v⌋ : ℚ) < 1 := by linarith [Int.lt_floor_add_one v]
  have hg'0 : 0 ≤ v' - (⌊v'⌋ : ℚ) := by linarith [Int.floor_le v']
  -- whenever the fractional part of v' is nonzero, the index ⌊v'⌋+1 is in range
  have hup : v' - (⌊v'⌋ : ℚ) ≠ 0 → ⌊v'⌋.toNat + 1 < s.length := by
    intro hg'
    have hlt : (⌊v'⌋ : ℚ) < v' :=
      lt_of_le_of_ne (Int.floor_le v') (fun heq => hg' (by linarith [heq]))
    have h3 : (⌊v'⌋ : ℤ) < (s.length : ℤ) - 1 := by
      have hq : ((⌊v'⌋ : ℤ) : ℚ) < (((s.length : ℤ) - 1 : ℤ) : ℚ) := by
        push_cast
        linarith
      exact_mod_cast hq
    omega
  by_cases hEq : ⌊v⌋ = ⌊v'⌋
  · -- same cell: only the fractional part grows
    rw [hEq]
    have hgle : v - (⌊v'⌋ : ℚ) ≤ v' - (⌊v'⌋ : ℚ) := by linarith
    by_cases hg' : v' - (⌊v'⌋ : ℚ) = 0
    · have hgz : v - (⌊v'⌋ : ℚ) = 0 := le_antisymm (by linarith) (by rw [← hEq]; exact hg0)
      rw [hgz, hg']
    · have hD : 0 ≤ s.getD (⌊v'⌋.toNat + 1) 0 - s.getD (⌊v'⌋.toNat) 0 := by
        have := sorted_getD_mono hs (Nat.le_succ (⌊v'⌋.toNat)) (hup hg')
        linarith
      have := mul_le_mul_of_nonneg_right hgle hD
      linarith
  · -- v lies in a strictly earlier cell
    have hfl_lt : ⌊v⌋ < ⌊v'⌋ := lt_of_le_of_ne (Int.floor_le_floor hvv) hEq
    have hi1 : ⌊v⌋.toNat + 1 ≤ ⌊v'⌋.toNat := by omega
    have hi1n : ⌊v⌋.toNat + 1 < s.length := by omega
    have hD0 : 0 ≤ s.getD (⌊v⌋.toNat + 1) 0 - s.getD (⌊v⌋.toNat) 0 := by
      have := sorted_getD_mono hs (Nat.le_succ (⌊v⌋.toNat)) hi1n
      linarith
    have step1 : s.getD (⌊v⌋.toNat) 0
        + (v - (⌊v⌋ : ℚ)) * (s.getD (⌊v⌋.toNat + 1) 0 - s.getD (⌊v⌋.toNat) 0)
          ≤ s.getD (⌊v⌋.toNat + 1) 0 := by
      have h1 : (v - (⌊v⌋ : ℚ)) * (s.getD (⌊v⌋.toNat + 1) 0 - s.getD (⌊v⌋.toNat) 0)
          ≤ 1 * (s.getD (⌊v⌋.toNat + 1) 0 - s.getD (⌊v⌋.toNat) 0) :=
        mul_le_mul_of_nonneg_right (le_of_lt hg1) hD0
      linarith
    have step2 : s.getD (⌊v⌋.toNat + 1) 0 ≤ s.getD (⌊v'⌋.toNat) 0 :=
      sorted_getD_mono hs hi1 hi'n
    have step3 : s.getD (⌊v'⌋.toNat) 0 ≤ s.getD (⌊v'⌋.toNat) 0
        + (v' - (⌊v'⌋ : ℚ)) * (s.getD (⌊v'⌋.toNat + 1) 0 - s.getD (⌊v'⌋.toNat) 0) := by
      by_cases hg' : v' - (⌊v'⌋ : ℚ) = 0
      · rw [hg']; simp
      · have hD' : 0 ≤ s.getD (⌊v'⌋.toNat + 1) 0 - s.getD (⌊v'⌋.toNat) 0 := by
          have := sorted_getD_mono hs (Nat.le_succ (⌊v'⌋.toNat)) (hup hg')
          linarith
        nlinarith [lt_of_le_of_ne hg'0 (Ne.symm hg')]
    linarith

lemma percentile_mono {l : List ℚ} (hne : l ≠ []) {q q' : ℚ} (hq0 : 0 ≤ q)
    (hqq : q ≤ q') (hq1 : q' ≤ 100) : percentile l q ≤ percentile l q' := by
  have hn : 1 ≤ l.length := List.length_pos.mpr hne
  have hn1 : (0 : ℚ) ≤ (l.length : ℚ) - 1 := by
    have : (1 : ℚ) ≤ (l.length : ℚ) := by exact_mod_cast hn
    linarith
  simp only [percentile]
  apply interp_mono (sortData_sorted l)
  · exact div_nonneg (mul_nonneg hq0 hn1) (by norm_num)
  · exact (div_le_div_iff_of_pos_right (by norm_num : (0:ℚ) < 100)).mpr
      (mul_le_mul_of_nonneg_right hqq hn1)
  · rw [sortData_length l, div_le_iff (by norm_num : (0:ℚ) < 100)]
    nlinarith [mul_le_mul_of_nonneg_right hq1 hn1]

lemma percentile_const {l : List ℚ} {c : ℚ} (hne : l ≠ [])
    (hall : ∀ x ∈ l, x = c) {q : ℚ} (hq0 : 0 ≤ q) (hq1 : q ≤ 100) :
    percentile l q = c := by
  have hn : 1 ≤ l.length := List.length_pos.mpr hne
  have hsall : ∀ x ∈ sortData l, x = c := fun x hx => hall x (sortData_mem.mp hx)
  have hslen : (sortData l).length = l.length := sortData_length l
  simp only [percentile]
  set v : ℚ := q * ((l.length : ℚ) - 1) / 100 with hv_def
  have hn1 : (0 : ℚ) ≤ (l.length : ℚ) - 1 := by
    have : (1 : ℚ) ≤ (l.length : ℚ) := by exact_mod_cast hn
    linarith
  have hv0 : 0 ≤ v := by rw [hv_def]; positivity
  have hv1 : v ≤ (l.length : ℚ) - 1 := by
    rw [hv_def, div_le_iff (by norm_num : (0:ℚ) < 100)]
    nlinarith
  have hfl0 : 0 ≤ ⌊v⌋ := Int.floor_nonneg.mpr hv0
  have hitop : (⌊v⌋ : ℤ) ≤ (l.length : ℤ) - 1 := by
    have : ((⌊v⌋ : ℤ) : ℚ) ≤ (((l.length : ℤ) - 1 : ℤ) : ℚ) := by
      push_cast
      linarith [Int.floor_le v]
    exact_mod_cast this
  have hin : ⌊v⌋.toNat < (sortData l).length := by
    rw [hslen]; omega
  rw [getD_of_all_eq hsall hin]
  by_cases hg : v - (⌊v⌋ : ℚ) = 0
  · rw [hg]; ring
  · have hlt : (⌊v⌋ : ℚ) < v :=
      lt_of_le_of_ne (Int.floor_le v) (fun heq => hg (by linarith [heq]))
    have h3 : (⌊v⌋ : ℤ) < (l.length : ℤ) - 1 := by
      have hq : ((⌊v⌋ : ℤ) : ℚ) < (((l.length : ℤ) - 1 : ℤ) : ℚ) := by
        push_cast
        linarith
      exact_mod_cast hq
    have hin1 : ⌊v⌋.toNat + 1 < (sortData l).length := by
      rw [hslen]; omega
    rw [getD_of_all_eq hsall hin1]
    ring

/-! ## The truncated cube-root division -/

lemma truncDivCbrt_of_nonneg {c : ℚ} (hc : 0 ≤ c) (n : ℕ) :
    truncDivCbrt c n = (truncDivCbrtNat c n : ℤ) := by
  rw [truncDivCbrt, if_pos hc]

lemma truncDivCbrt_zero (n : ℕ) : truncDivCbrt 0 n = 0 := by
  rw [truncDivCbrt_of_nonneg (le_refl 0) n, truncDivCbrtNat]
  norm_num

/-- The rational encoding of the bin width (greatest `k` with `k³·n ≤ c³`)
agrees with the real-number formula of the source, `int(c / n**(1/3))`, for
the reachable case `c ≥ 0`, `n ≥ 1`. -/
lemma truncDivCbrtNat_eq_floor {c : ℚ} (hc : 0 ≤ c) {n : ℕ} (hn : 1 ≤ n) :
    ((truncDivCbrtNat c n : ℕ) : ℤ) = ⌊(c : ℝ) / (n : ℝ) ^ ((1 : ℝ) / 3)⌋ := by
  have hn0 : (0 : ℝ) < (n : ℝ) := by exact_mod_cast hn
  have hcr : (0 : ℝ) ≤ ((c : ℚ) : ℝ) := by exact_mod_cast hc
  have hρpos : 0 < (n : ℝ) ^ ((1 : ℝ) / 3) := Real.rpow_pos_of_pos hn0 _
  have hρ1 : 1 ≤ (n : ℝ) ^ ((1 : ℝ) / 3) :=
    Real.one_le_rpow (by exact_mod_cast hn) (by norm_num)
  have hcube : ((n : ℝ) ^ ((1 : ℝ) / 3)) ^ (3 : ℕ) = (n : ℝ) := by
    rw [← Real.rpow_natCast ((n : ℝ) ^ ((1 : ℝ) / 3)) 3, ← Real.rpow_mul hn0.le]
    norm_num
  have key : ∀ k : ℕ, ((k : ℚ) ^ 3 * (n : ℚ) ≤ c ^ 3) ↔
      ((k : ℝ) ≤ ((c : ℚ) : ℝ) / (n : ℝ) ^ ((1 : ℝ) / 3)) := by
    intro k
    rw [le_div_iff hρpos]
    have h1 : ((k : ℝ) * (n : ℝ) ^ ((1 : ℝ) / 3) ≤ ((c : ℚ) : ℝ)) ↔
        ((k : ℝ) * (n : ℝ) ^ ((1 : ℝ) / 3)) ^ (3 : ℕ) ≤ (((c : ℚ) : ℝ)) ^ (3 : ℕ) :=
      (pow_le_pow_iff_left (by positivity) hcr (by norm_num)).symm
    rw [h1, mul_pow, hcube]
    constructor
    · intro h
      exact_mod_cast h
    · intro h
      exact_mod_cast h
  have hdef : truncDivCbrtNat c n
      = Nat.findGreatest (fun k => (k : ℚ) ^ 3 * (n : ℚ) ≤ c ^ 3) (⌈c⌉.toNat) := rfl
  have hPg : ((truncDivCbrtNat c n : ℕ) : ℚ) ^ 3 * (n : ℚ) ≤ c ^ 3 := by
    rw [hdef]
    exact @Nat.findGreatest_spec 0 (fun k => (k : ℚ) ^ 3 * (n : ℚ) ≤ c ^ 3) _
      (⌈c⌉.toNat) (Nat.zero_le _) (by simpa using pow_nonneg hc 3)
  have hglow : ((truncDivCbrtNat c n : ℕ) : ℝ)
      ≤ ((c : ℚ) : ℝ) / (n : ℝ) ^ ((1 : ℝ) / 3) := (key _).mp hPg
  have hupper : ((c : ℚ) : ℝ) / (n : ℝ) ^ ((1 : ℝ) / 3)
      < ((truncDivCbrtNat c n : ℕ) : ℝ) + 1 := by
    by_cases hgb : truncDivCbrtNat c n + 1 ≤ ⌈c⌉.toNat
    · have hnP : ¬(((truncDivCbrtNat c n + 1 : ℕ) : ℚ) ^ 3 * (n : ℚ) ≤ c ^ 3) := by
        have h1 : Nat.findGreatest (fun k => (k : ℚ) ^ 3 * (n : ℚ) ≤ c ^ 3)
            (⌈c⌉.toNat) < truncDivCbrtNat c n + 1 := by
          rw [← hdef]
          omega
        exact Nat.findGreatest_is_greatest h1 hgb
      have := (key (truncDivCbrtNat c n + 1)).not.mp hnP
      rw [not_le] at this
      push_cast at this ⊢
      linarith
    · have hgle : truncDivCbrtNat c n ≤ ⌈c⌉.toNat := by
        rw [hdef]
        exact Nat.findGreatest_le _
      have hgeq : truncDivCbrtNat c n = ⌈c⌉.toNat := by omega
      have h1 : ((c : ℚ) : ℝ) / (n : ℝ) ^ ((1 : ℝ) / 3) ≤ ((c : ℚ) : ℝ) :=
        div_le_self hcr hρ1
      have h2 : ((c : ℚ) : ℝ) ≤ ((⌈c⌉.toNat : ℕ) : ℝ) := by
        have h3 : c ≤ ((⌈c⌉ : ℤ) : ℚ) := Int.le_ceil c
        have h4 : (⌈c⌉ : ℤ) ≤ ((⌈c⌉.toNat : ℕ) : ℤ) := Int.self_le_toNat ⌈c⌉
        have h5 : c ≤ ((⌈c⌉.toNat : ℕ) : ℚ) := by
          calc c ≤ ((⌈c⌉ : ℤ) : ℚ) := h3
            _ ≤ ((⌈c⌉.toNat : ℕ) : ℚ) := by exact_mod_cast h4
        exact_mod_cast h5
      rw [hgeq]
      linarith
  have hfloor : ⌊((c : ℚ) : ℝ) / (n : ℝ) ^ ((1 : ℝ) / 3)⌋
      = ((truncDivCbrtNat c n : ℕ) : ℤ) := by
    rw [Int.floor_eq_iff]
    constructor
    · push_cast
      exact hglow
    · push_cast
      exact hupper
  exact hfloor.symm

/-! ## Constant data faults the bin-size computation -/

lemma calculate_bin_size_const {data : List ℚ} (hne : data ≠ [])
    (hall : ∀ x ∈ data, ∀ y ∈ data, x = y) :
    calculate_bin_size data = .error .arithFault := by
  obtain ⟨x, hx⟩ : ∃ x, x ∈ data := List.exists_mem_of_ne_nil data hne
  have hconst : ∀ z ∈ data, z = x := fun z hz => hall z hz x hx
  apply calculate_bin_size_error_of_binw_zero
  rw [percentile_const hne hconst (by norm_num) (by norm_num),
    percentile_const hne hconst (by norm_num) (by norm_num),
    sub_self, mul_zero]
  exact truncDivCbrt_zero _

/-! ## Shape of the edge list -/

lemma histEdges_pairwise {dmin dmax : ℚ} (hd : dmin < dmax) (k : ℕ) :
    List.Pairwise (· < ·) (histEdges dmin dmax k) := by
  rw [List.pairwise_iff_getElem]
  intro i j hi hj hij
  rw [histEdges_length] at hi hj
  have hstep := histEdges_getD_strictMono hd hij (by omega : j ≤ k)
  rwa [List.getD_eq_getElem _ 0 (by rw [histEdges_length]; omega),
    List.getD_eq_getElem _ 0 (by rw [histEdges_length]; omega)] at hstep

lemma histEdges_head (dmin dmax : ℚ) (k : ℕ) :
    (histEdges dmin dmax k).head? = some dmin := by
  have h0 : 0 < (histEdges dmin dmax k).length := by rw [histEdges_length]; omega
  rw [List.head?_eq_getElem?, List.getElem?_eq_getElem h0,
    ← List.getD_eq_getElem _ 0 h0, histEdges_getD dmin dmax k (Nat.zero_le k)]
  norm_num

lemma histEdges_getLast {dmin dmax : ℚ} (k : ℕ) (hk : 1 ≤ k) :
    (histEdges dmin dmax k).getLast? = some dmax := by
  have hlen : (histEdges dmin dmax k).length = k + 1 := histEdges_length dmin dmax k
  have hidx : (histEdges dmin dmax k).length - 1 < (histEdges dmin dmax k).length := by
    omega
  rw [List.getLast?_eq_getElem?, List.getElem?_eq_getElem hidx,
    ← List.getD_eq_getElem _ 0 hidx]
  have hk' : (histEdges dmin dmax k).length - 1 = k := by omega
  rw [hk', histEdges_getD dmin dmax k (le_refl k)]
  have hkq : (k : ℚ) ≠ 0 := by
    have : 0 < k := hk
    exact_mod_cast Nat.pos_iff_ne_zero.mp this
  congr 1
  field_simp

lemma distributionArrays_xdst_bounds {data : List ℚ} {k : ℕ}
    (hd : listMin data ≤ listMax data) (hk : 1 ≤ k) :
    ∀ z ∈ (distributionArrays data k).xdst,
      listMin data ≤ z ∧ z ≤ listMax data := by
  rw [distributionArrays_xdst, distributionArrays_oedge]
  intro z hz
  obtain ⟨x, hx, y, hy, rfl⟩ := mem_zipWith hz
  have hx' := histEdges_mem_bounds hd hk x
    (List.drop_subset 1 (histEdges (listMin data) (listMax data) k) hx)
  have hy' := histEdges_mem_bounds hd hk y hy
  constructor
  · linarith [hx'.1, hy'.1]
  · linarith [hx'.2, hy'.2]

lemma pipelineStats_of_ok {data : List ℚ} {d : Distribution}
    (h : calculate_distribution data = .ok d) :
    pipelineStats data = .ok (round2 (weightedMean d),
      round2 (round2 (weightedMean d) * (8 / 10)),
      round2 (round2 (weightedMean d) * (12 / 10))) := by
  rw [pipelineStats, h]
  rfl

/-! ## Concrete evaluations of the pipeline -/

set_option maxHeartbeats 1000000 in
lemma eval_bin_size_d9 :
    calculate_bin_size [10,20,20,30,30,30,40,40,40,40] = .ok 2 := by
  have hs : sortData [10,20,20,30,30,30,40,40,40,40]
      = [10,20,20,30,30,30,40,40,40,40] := by
    norm_num [sortData, List.insertionSort, List.orderedInsert]
  have h25 : percentile [10,20,20,30,30,30,40,40,40,40] 25 = 45/2 := by
    simp only [percentile, hs]
    norm_num [List.getD_cons_zero, List.getD_cons_succ]
    try simp
    try norm_num [List.getD_cons_zero, List.getD_cons_succ]
  have h75 : percentile [10,20,20,30,30,30,40,40,40,40] 75 = 40 := by
    simp only [percentile, hs]
    norm_num [List.getD_cons_zero, List.getD_cons_succ]
    try simp
    try norm_num [List.getD_cons_zero, List.getD_cons_succ]
  have hmin : listMin [10,20,20,30,30,30,40,40,40,40] = 10 := by
    norm_num [listMin, List.foldl, min_def]
  have hmax : listMax [10,20,20,30,30,30,40,40,40,40] = 40 := by
    norm_num [listMax, List.foldl, max_def]
  rw [calculate_bin_size]
  simp only [h25, h75, hmin, hmax]
  norm_num [truncDivCbrt, truncDivCbrtNat, Nat.findGreatest, Int.ceil_eq_iff]

set_option maxHeartbeats 1000000 in
lemma eval_dist_d9 :
    calculate_distribution [10,20,20,30,30,30,40,40,40,40]
      = .ok ⟨[3,7], [10,25,40], [35/2,65/2], [15,15], [3/10,7/10], [3/10,1]⟩ := by
  have hmin : listMin [10,20,20,30,30,30,40,40,40,40] = 10 := by
    norm_num [listMin, List.foldl, min_def]
  have hmax : listMax [10,20,20,30,30,30,40,40,40,40] = 40 := by
    norm_num [listMax, List.foldl, max_def]
  have hedges : histEdges 10 40 2 = [10, 25, 40] := by
    norm_num [histEdges, List.range_succ]
  have hcounts : histCounts [10,20,20,30,30,30,40,40,40,40] 2 = [3, 7] := by
    simp only [histCounts, hmin, hmax, hedges]
    norm_num [List.range_succ, List.countP_cons, List.countP_nil, inBin,
      List.getD_cons_zero, List.getD_cons_succ]
  rw [calculate_distribution_of_ok eval_bin_size_d9, if_neg (by norm_num)]
  show Except.ok (distributionArrays [10,20,20,30,30,30,40,40,40,40] 2) = _
  congr 1
  simp only [distributionArrays, hmin, hmax, hedges, hcounts]
  norm_num [cumsum, List.scanl, List.zipWith]

set_option maxHeartbeats 1000000 in
lemma eval_bin_size_01 : calculate_bin_size [0, 1] = .error .arithFault := by
  have hs : sortData [0, 1] = [0, 1] := by
    norm_num [sortData, List.insertionSort, List.orderedInsert]
  have h25 : percentile [0, 1] 25 = 1/4 := by
    simp only [percentile, hs]
    norm_num [List.getD_cons_zero, List.getD_cons_succ]
    try simp
    try norm_num [List.getD_cons_zero, List.getD_cons_succ]
  have h75 : percentile [0, 1] 75 = 3/4 := by
    simp only [percentile, hs]
    norm_num [List.getD_cons_zero, List.getD_cons_succ]
    try simp
    try norm_num [List.getD_cons_zero, List.getD_cons_succ]
  rw [calculate_bin_size]
  simp only [h25, h75]
  norm_num [truncDivCbrt, truncDivCbrtNat, Nat.findGreatest, Int.ceil_eq_iff]

set_option maxHeartbeats 1000000 in
lemma eval_bin_size_010 : calculate_bin_size [0, 10] = .ok 2 := by
  have hs : sortData [0, 10] = [0, 10] := by
    norm_num [sortData, List.insertionSort, List.orderedInsert]
  have h25 : percentile [0, 10] 25 = 5/2 := by
    simp only [percentile, hs]
    norm_num [List.getD_cons_zero, List.getD_cons_succ]
    try simp
    try norm_num [List.getD_cons_zero, List.getD_cons_succ]
  have h75 : percentile [0, 10] 75 = 15/2 := by
    simp only [percentile, hs]
    norm_num [List.getD_cons_zero, List.getD_cons_succ]
    try simp
    try norm_num [List.getD_cons_zero, List.getD_cons_succ]
  have hmin : listMin [0, 10] = 0 := by
    norm_num [listMin, List.foldl, min_def]
  have hmax : listMax [0, 10] = 10 := by
    norm_num [listMax, List.foldl, max_def]
  rw [calculate_bin_size]
  simp only [h25, h75, hmin, hmax]
  norm_num [truncDivCbrt, truncDivCbrtNat, Nat.findGreatest, Int.ceil_eq_iff]

set_option maxHeartbeats 1000000 in
lemma eval_bin_size_0044 : calculate_bin_size [0, 0, 4, 4] = .ok 1 := by
  have hs : sortData [0, 0, 4, 4] = [0, 0, 4, 4] := by
    norm_num [sortData, List.insertionSort, List.orderedInsert]
  have h25 : percentile [0, 0, 4, 4] 25 = 0 := by
    simp only [percentile, hs]
    norm_num [List.getD_cons_zero, List.getD_cons_succ]
    try simp
    try norm_num [List.getD_cons_zero, List.getD_cons_succ]
  have h75 : percentile [0, 0, 4, 4] 75 = 4 := by
    simp only [percentile, hs]
    norm_num [List.getD_cons_zero, List.getD_cons_succ]
    try simp
    try norm_num [List.getD_cons_zero, List.getD_cons_succ]
  have hmin : listMin [0, 0, 4, 4] = 0 := by
    norm_num [listMin, List.foldl, min_def]
  have hmax : listMax [0, 0, 4, 4] = 4 := by
    norm_num [listMax, List.foldl, max_def]
  rw [calculate_bin_size]
  simp only [h25, h75, hmin, hmax]
  norm_num [truncDivCbrt, truncDivCbrtNat, Nat.findGreatest, Int.ceil_eq_iff]

set_option maxHeartbeats 1000000 in
lemma eval_dist_0044 :
    calculate_distribution [0, 0, 4, 4]
      = .ok ⟨[4], [0, 4], [2], [4], [1], [1]⟩ := by
  have hmin : listMin [0, 0, 4, 4] = 0 := by
    norm_num [listMin, List.foldl, min_def]
  have hmax : listMax [0, 0, 4, 4] = 4 := by
    norm_num [listMax, List.foldl, max_def]
  have hedges : histEdges 0 4 1 = [0, 4] := by
    norm_num [histEdges, List.range_succ]
  have hcounts : histCounts [0, 0, 4, 4] 1 = [4] := by
    simp only [histCounts, hmin, hmax, hedges]
    norm_num [List.range_succ, List.countP_cons, List.countP_nil, inBin,
      List.getD_cons_zero, List.getD_cons_succ]
  rw [calculate_distribution_of_ok eval_bin_size_0044, if_neg (by norm_num)]
  show Except.ok (distributionArrays [0, 0, 4, 4] 1) = _
  congr 1
  simp only [distributionArrays, hmin, hmax, hedges, hcounts]
  norm_num [cumsum, List.scanl, List.zipWith]

set_option maxHeartbeats 1000000 in
lemma eval_bin_size_1to7 : calculate_bin_size [1, 2, 3, 4, 5, 6, 7] = .ok 2 := by
  have hs : sortData [1, 2, 3, 4, 5, 6, 7] = [1, 2, 3, 4, 5, 6, 7] := by
    norm_num [sortData, List.insertionSort, List.orderedInsert]
  have h25 : percentile [1, 2, 3, 4, 5, 6, 7] 25 = 5/2 := by
    simp only [percentile, hs]
    norm_num [List.getD_cons_zero, List.getD_cons_succ]
    try simp
    try norm_num [List.getD_cons_zero, List.getD_cons_succ]
  have h75 : percentile [1, 2, 3, 4, 5, 6, 7] 75 = 11/2 := by
    simp only [percentile, hs]
    norm_num [List.getD_cons_zero, List.getD_cons_succ]
    try simp
    try norm_num [List.getD_cons_zero, List.getD_cons_succ]
  have hmin : listMin [1, 2, 3, 4, 5, 6, 7] = 1 := by
    norm_num [listMin, List.foldl, min_def]
  have hmax : listMax [1, 2, 3, 4, 5, 6, 7] = 7 := by
    norm_num [listMax, List.foldl, max_def]
  rw [calculate_bin_size]
  simp only [h25, h75, hmin, hmax]
  norm_num [truncDivCbrt, truncDivCbrtNat, Nat.findGreatest, Int.ceil_eq_iff]

set_option maxHeartbeats 1000000 in
lemma eval_dist_1to7 :
    calculate_distribution [1, 2, 3, 4, 5, 6, 7]
      = .ok ⟨[3, 4], [1, 4, 7], [5/2, 11/2], [3, 3], [3/7, 4/7], [3/7, 1]⟩ := by
  have hmin : listMin [1, 2, 3, 4, 5, 6, 7] = 1 := by
    norm_num [listMin, List.foldl, min_def]
  have hmax : listMax [1, 2, 3, 4, 5, 6, 7] = 7 := by
    norm_num [listMax, List.foldl, max_def]
  have hedges : histEdges 1 7 2 = [1, 4, 7] := by
    norm_num [histEdges, List.range_succ]
  have hcounts : histCounts [1, 2, 3, 4, 5, 6, 7] 2 = [3, 4] := by
    simp only [histCounts, hmin, hmax, hedges]
    norm_num [List.range_succ, List.countP_cons, List.countP_nil, inBin,
      List.getD_cons_zero, List.getD_cons_succ]
  rw [calculate_distribution_of_ok eval_bin_size_1to7, if_neg (by norm_num)]
  show Except.ok (distributionArrays [1, 2, 3, 4, 5, 6, 7] 2) = _
  congr 1
  simp only [distributionArrays, hmin, hmax, hedges, hcounts]
  norm_num [cumsum, List.scanl, List.zipWith]

/-! ## Claim C1 -/

/-- C1: for every non-empty numeric input sequence on which
`calculate_distribution` succeeds, the sum of the per-bin histogram counts it
returns (`ohist`) equals the length of the input sequence, and every count is
`≥ 0`. -/
theorem C1_counts_sum_eq_length {data : List ℚ} {d : Distribution}
    (hne : data ≠ []) (h : calculate_distribution data = .ok d) :
    d.ohist.sum = data.length ∧ ∀ c ∈ d.ohist, 0 ≤ c := by
  obtain ⟨k, hk, rfl, hmm, -⟩ := dist_ok_facts h
  refine ⟨?_, fun c _ => Nat.zero_le c⟩
  rw [distributionArrays_ohist]
  exact sum_histCounts hk hmm

/-- Witness for C1 at the spec's reference input. -/
theorem C1_counts_sum_eq_length_witness :
    ([10,20,20,30,30,30,40,40,40,40] : List ℚ) ≠ [] ∧
    calculate_distribution [10,20,20,30,30,30,40,40,40,40]
      = .ok ⟨[3,7], [10,25,40], [35/2,65/2], [15,15], [3/10,7/10], [3/10,1]⟩ ∧
    ((Distribution.mk [3,7] [10,25,40] [35/2,65/2] [15,15] [3/10,7/10]
        [3/10,1]).ohist.sum = ([10,20,20,30,30,30,40,40,40,40] : List ℚ).length ∧
      ∀ c ∈ (Distribution.mk [3,7] [10,25,40] [35/2,65/2] [15,15] [3/10,7/10]
        [3/10,1]).ohist, 0 ≤ c) :=
  ⟨by simp, eval_dist_d9, C1_counts_sum_eq_length (by simp) eval_dist_d9⟩

/-! ## Claim C2 -/

/-- C2: for every input on which `calculate_distribution` succeeds, the
per-bin probability sequence `ydst` equals count divided by total count for
each bin, and its sum equals `1.0` — exactly over the embedded rationals,
hence in particular within the claimed floating-point tolerance `1e-9`. -/
theorem C2_ydst_probabilities {data : List ℚ} {d : Distribution}
    (h : calculate_distribution data = .ok d) :
    (∀ j, j < d.ohist.length →
      d.ydst.getD j 0 = ((d.ohist.getD j 0 : ℕ) : ℚ) / ((d.ohist.sum : ℕ) : ℚ)) ∧
    d.ydst.sum = 1 ∧ |d.ydst.sum - 1| ≤ 1 / 1000000000 := by
  obtain ⟨k, hk, rfl, hmm, hne⟩ := dist_ok_facts h
  have hsum := distributionArrays_ydst_sum hk hmm hne
  refine ⟨?_, hsum, by rw [hsum]; norm_num⟩
  intro j hj
  conv_lhs => rw [distributionArrays_ydst]
  have hj' : j < ((distributionArrays data k).ohist.map
      (fun (c : ℕ) => (c : ℚ) / (((distributionArrays data k).ohist.sum : ℕ) : ℚ))).length := by
    rw [List.length_map]
    exact hj
  rw [List.getD_eq_getElem _ 0 hj', List.getElem_map, List.getD_eq_getElem _ 0 hj]

/-- Witness for C2 at the spec's reference input. -/
theorem C2_ydst_probabilities_witness :
    calculate_distribution [10,20,20,30,30,30,40,40,40,40]
      = .ok ⟨[3,7], [10,25,40], [35/2,65/2], [15,15], [3/10,7/10], [3/10,1]⟩ ∧
    ((∀ j, j < (Distribution.mk [3,7] [10,25,40] [35/2,65/2] [15,15]
        [3/10,7/10] [3/10,1]).ohist.length →
      (Distribution.mk [3,7] [10,25,40] [35/2,65/2] [15,15] [3/10,7/10]
        [3/10,1]).ydst.getD j 0
        = (((Distribution.mk [3,7] [10,25,40] [35/2,65/2] [15,15] [3/10,7/10]
            [3/10,1]).ohist.getD j 0 : ℕ) : ℚ)
          / (((Distribution.mk [3,7] [10,25,40] [35/2,65/2] [15,15] [3/10,7/10]
            [3/10,1]).ohist.sum : ℕ) : ℚ)) ∧
    (Distribution.mk [3,7] [10,25,40] [35/2,65/2] [15,15] [3/10,7/10]
        [3/10,1]).ydst.sum = 1 ∧
    |(Distribution.mk [3,7] [10,25,40] [35/2,65/2] [15,15] [3/10,7/10]
        [3/10,1]).ydst.sum - 1| ≤ 1 / 1000000000) :=
  ⟨eval_dist_d9, C2_ydst_probabilities eval_dist_d9⟩

/-! ## Claim C5 -/

/-- C5: for every input on which `calculate_distribution` succeeds, the
cumulative probability sequence `cdst` is the prefix sum of the per-bin
probabilities, is monotonically non-decreasing, and its final element equals
`1.0` — exactly, hence within any floating-point tolerance. -/
theorem C5_cdst_cumulative {data : List ℚ} {d : Distribution}
    (h : calculate_distribution data = .ok d) :
    (∀ j, j < d.cdst.length → d.cdst.getD j 0 = (d.ydst.take (j + 1)).sum) ∧
    (∀ i j, i ≤ j → j < d.cdst.length → d.cdst.getD i 0 ≤ d.cdst.getD j 0) ∧
    d.cdst.getLast? = some 1 := by
  obtain ⟨k, hk, rfl, hmm, hne⟩ := dist_ok_facts h
  have hlen : (distributionArrays data k).cdst.length
      = (distributionArrays data k).ydst.length := by
    rw [distributionArrays_cdst, cumsum_length]
  have hynn := distributionArrays_ydst_nonneg data k
  refine ⟨?_, ?_, ?_⟩
  · intro j hj
    rw [distributionArrays_cdst]
    exact cumsum_getD (hlen ▸ hj)
  · intro i j hij hj
    have hj' : j < (distributionArrays data k).ydst.length := by
      rw [← hlen]
      exact hj
    have hi' : i < (distributionArrays data k).ydst.length :=
      lt_of_le_of_lt hij hj'
    rw [distributionArrays_cdst, cumsum_getD hi', cumsum_getD hj']
    exact sum_take_mono hynn (Nat.succ_le_succ hij)
  · have hyne : (distributionArrays data k).ydst ≠ [] := by
      have : 0 < (distributionArrays data k).ydst.length := by
        rw [distributionArrays_ydst_length]
        omega
      exact List.length_pos.mp this
    rw [distributionArrays_cdst, cumsum_getLast hyne,
      distributionArrays_ydst_sum hk hmm hne]

/-- Witness for C5 at the spec's reference input. -/
theorem C5_cdst_cumulative_witness :
    calculate_distribution [10,20,20,30,30,30,40,40,40,40]
      = .ok ⟨[3,7], [10,25,40], [35/2,65/2], [15,15], [3/10,7/10], [3/10,1]⟩ ∧
    ((∀ j, j < (Distribution.mk [3,7] [10,25,40] [35/2,65/2] [15,15]
        [3/10,7/10] [3/10,1]).cdst.length →
      (Distribution.mk [3,7] [10,25,40] [35/2,65/2] [15,15] [3/10,7/10]
        [3/10,1]).cdst.getD j 0
        = ((Distribution.mk [3,7] [10,25,40] [35/2,65/2] [15,15] [3/10,7/10]
            [3/10,1]).ydst.take (j + 1)).sum) ∧
    (∀ i j, i ≤ j → j < (Distribution.mk [3,7] [10,25,40] [35/2,65/2] [15,15]
        [3/10,7/10] [3/10,1]).cdst.length →
      (Distribution.mk [3,7] [10,25,40] [35/2,65/2] [15,15] [3/10,7/10]
        [3/10,1]).cdst.getD i 0
        ≤ (Distribution.mk [3,7] [10,25,40] [35/2,65/2] [15,15] [3/10,7/10]
            [3/10,1]).cdst.getD j 0) ∧
    (Distribution.mk [3,7] [10,25,40] [35/2,65/2] [15,15] [3/10,7/10]
        [3/10,1]).cdst.getLast? = some 1) :=
  ⟨eval_dist_d9, C5_cdst_cumulative eval_dist_d9⟩

/-! ## Claim C3

The claim as frozen — "for every numeric sequence of length ≥ 2,
`calculate_bin_size` … returns a positive integer bin count" — is false on
the code: on `[0, 1]` (length 2) the truncated bin width is
`int(1 / 2^(1/3)) = 0` and the unguarded division faults, so no bin count is
returned at all.  The amended claim conditions on the bin width being
nonzero, i.e. on the computation succeeding. -/

/-- C3 (counterexample): `[0, 1]` has length 2, yet `calculate_bin_size`
does not return a positive bin count — it hits the unguarded arithmetic
fault. -/
theorem C3_counterexample :
    ([0, 1] : List ℚ).length = 2 ∧
    calculate_bin_size [0, 1] = Except.error PyError.arithFault :=
  ⟨rfl, eval_bin_size_01⟩

/-- C3 (amended): for every numeric sequence of length ≥ 2 on which
`calculate_bin_size` succeeds, the bin width is the truncation of
`2·IQR / n^(1/3)` (stated over `ℝ` with the real cube root, where
`IQR = percentile 75 − percentile 25`), it is positive, the returned bin
count is `⌈(max − min) / binw⌉`, and it is a positive integer. -/
theorem C3_amended {data : List ℚ} {b : ℤ} (hlen : 2 ≤ data.length)
    (h : calculate_bin_size data = .ok b) :
    0 < b ∧
    0 < truncDivCbrt (2 * (percentile data 75 - percentile data 25)) data.length ∧
    b = ⌈(listMax data - listMin data) /
        ((truncDivCbrt (2 * (percentile data 75 - percentile data 25))
          data.length : ℤ) : ℚ)⌉ ∧
    truncDivCbrt (2 * (percentile data 75 - percentile data 25)) data.length
      = ⌊((2 * (percentile data 75 - percentile data 25) : ℚ) : ℝ)
          / (data.length : ℝ) ^ ((1 : ℝ) / 3)⌋ := by
  have hne : data ≠ [] := by
    intro h0
    rw [h0] at hlen
    simp at hlen
  have hiqr : 0 ≤ percentile data 75 - percentile data 25 :=
    sub_nonneg.mpr (percentile_mono hne (by norm_num) (by norm_num) (by norm_num))
  have hc : 0 ≤ 2 * (percentile data 75 - percentile data 25) := by linarith
  obtain ⟨hb0, hb_eq⟩ := calculate_bin_size_ok h
  have hn1 : 1 ≤ data.length := by omega
  have hfloor : truncDivCbrt (2 * (percentile data 75 - percentile data 25))
      data.length
      = ⌊((2 * (percentile data 75 - percentile data 25) : ℚ) : ℝ)
          / (data.length : ℝ) ^ ((1 : ℝ) / 3)⌋ := by
    rw [truncDivCbrt_of_nonneg hc]
    exact truncDivCbrtNat_eq_floor hc hn1
  have hbinw_pos : 0 < truncDivCbrt
      (2 * (percentile data 75 - percentile data 25)) data.length := by
    rw [truncDivCbrt_of_nonneg hc] at hb0 ⊢
    have hne0 : truncDivCbrtNat
        (2 * (percentile data 75 - percentile data 25)) data.length ≠ 0 := by
      intro h0
      exact hb0 (by exact_mod_cast h0)
    exact_mod_cast Nat.pos_of_ne_zero hne0
  have hΔpos : 0 < listMax data - listMin data := by
    rcases eq_or_lt_of_le (listMin_le_listMax data) with heq | hlt
    · exfalso
      have hall : ∀ x ∈ data, ∀ y ∈ data, x = y := by
        intro x hx y hy
        have h1 := listMin_le hx
        have h2 := le_listMax hx
        have h3 := listMin_le hy
        have h4 := le_listMax hy
        exact le_antisymm (by linarith) (by linarith)
      have herr := calculate_bin_size_const hne hall
      rw [herr] at h
      cases h
    · linarith
  have hbpos : 0 < b := by
    rw [hb_eq]
    apply Int.ceil_pos.mpr
    apply div_pos hΔpos
    exact_mod_cast hbinw_pos
  exact ⟨hbpos, hbinw_pos, hb_eq, hfloor⟩

/-- Witness for C3 (amended) at `[0, 10]`, where the bin width is
`int(10 / 2^(1/3)) = 7` and the bin count is `⌈10/7⌉ = 2`. -/
theorem C3_amended_witness :
    2 ≤ ([0, 10] : List ℚ).length ∧ calculate_bin_size [0, 10] = .ok 2 ∧
    (0 < (2 : ℤ) ∧
     0 < truncDivCbrt (2 * (percentile [0, 10] 75 - percentile [0, 10] 25))
        ([0, 10] : List ℚ).length ∧
     (2 : ℤ) = ⌈(listMax [0, 10] - listMin [0, 10]) /
        ((truncDivCbrt (2 * (percentile [0, 10] 75 - percentile [0, 10] 25))
          ([0, 10] : List ℚ).length : ℤ) : ℚ)⌉ ∧
     truncDivCbrt (2 * (percentile [0, 10] 75 - percentile [0, 10] 25))
        ([0, 10] : List ℚ).length
       = ⌊((2 * (percentile [0, 10] 75 - percentile [0, 10] 25) : ℚ) : ℝ)
           / (([0, 10] : List ℚ).length : ℝ) ^ ((1 : ℝ) / 3)⌋) :=
  ⟨by norm_num, eval_bin_size_010, C3_amended (by norm_num) eval_bin_size_010⟩

/-! ## Claim C4

The claim as frozen — zero-variance input makes the bin-size calculation
fail with an explicit "degenerate distribution" error — is false on the
code: the source has no such guard.  On zero-variance input the IQR is 0,
the truncated bin width is 0, and the computation dies on the unguarded
arithmetic fault, exactly as §7 of the spec describes the original. -/

/-- C4 (counterexample): `[5, 5]` is all-identical, yet the bin-size
calculation does not produce the explicit "degenerate distribution" error —
it hits the raw arithmetic fault. -/
theorem C4_counterexample :
    (∀ x ∈ ([5, 5] : List ℚ), ∀ y ∈ ([5, 5] : List ℚ), x = y) ∧
    calculate_bin_size [5, 5] ≠ Except.error PyError.degenerateDistribution ∧
    calculate_bin_size [5, 5] = Except.error PyError.arithFault := by
  have hall : ∀ x ∈ ([5, 5] : List ℚ), ∀ y ∈ ([5, 5] : List ℚ), x = y := by
    intro x hx y hy
    simp only [List.mem_cons, List.not_mem_nil, or_false] at hx hy
    rcases hx with rfl | rfl <;> rcases hy with rfl | rfl <;> rfl
  have herr := calculate_bin_size_const (by simp) hall
  refine ⟨hall, ?_, herr⟩
  rw [herr]
  simp

/-- C4 (amended): on every non-empty zero-variance (all-identical) input,
`calculate_bin_size` fails — but with the unguarded arithmetic fault of the
division by the zero bin width, not with an explicit "degenerate
distribution" error. -/
theorem C4_amended {data : List ℚ} (hne : data ≠ [])
    (hall : ∀ x ∈ data, ∀ y ∈ data, x = y) :
    calculate_bin_size data = .error .arithFault :=
  calculate_bin_size_const hne hall

/-- Witness for C4 (amended) at `[5, 5]`. -/
theorem C4_amended_witness :
    (([5, 5] : List ℚ) ≠ [] ∧
      ∀ x ∈ ([5, 5] : List ℚ), ∀ y ∈ ([5, 5] : List ℚ), x = y) ∧
    calculate_bin_size [5, 5] = Except.error PyError.arithFault := by
  have hall : ∀ x ∈ ([5, 5] : List ℚ), ∀ y ∈ ([5, 5] : List ℚ), x = y := by
    intro x hx y hy
    simp only [List.mem_cons, List.not_mem_nil, or_false] at hx hy
    rcases hx with rfl | rfl <;> rcases hy with rfl | rfl <;> rfl
  exact ⟨⟨by simp, hall⟩, C4_amended (by simp) hall⟩

/-! ## Claim C6 -/

/-- C6: for every input on which `calculate_distribution` succeeds, the
returned edge list `oedge` is strictly increasing, has length equal to the
bin count plus 1, and spans exactly `[min data, max data]`. -/
theorem C6_edges {data : List ℚ} {d : Distribution} {nb : ℤ}
    (hbs : calculate_bin_size data = .ok nb)
    (h : calculate_distribution data = .ok d) :
    d.oedge.length = nb.toNat + 1 ∧ List.Pairwise (· < ·) d.oedge ∧
    d.oedge.head? = some (listMin data) ∧
    d.oedge.getLast? = some (listMax data) := by
  obtain ⟨nb', hbs', hnb', hd⟩ := calculate_distribution_ok h
  rw [hbs] at hbs'
  injection hbs' with hnb_eq
  subst hnb_eq
  subst hd
  obtain ⟨hmm, hne, -⟩ := bin_size_pos_facts hbs hnb'
  have hk : 1 ≤ nb.toNat := by omega
  refine ⟨?_, ?_, ?_, ?_⟩
  · rw [distributionArrays_oedge, histEdges_length]
  · rw [distributionArrays_oedge]
    exact histEdges_pairwise hmm _
  · rw [distributionArrays_oedge]
    exact histEdges_head _ _ _
  · rw [distributionArrays_oedge]
    exact histEdges_getLast _ hk

/-- Witness for C6 at the spec's reference input. -/
theorem C6_edges_witness :
    calculate_bin_size [10,20,20,30,30,30,40,40,40,40] = .ok 2 ∧
    calculate_distribution [10,20,20,30,30,30,40,40,40,40]
      = .ok ⟨[3,7], [10,25,40], [35/2,65/2], [15,15], [3/10,7/10], [3/10,1]⟩ ∧
    ((Distribution.mk [3,7] [10,25,40] [35/2,65/2] [15,15] [3/10,7/10]
        [3/10,1]).oedge.length = (2 : ℤ).toNat + 1 ∧
      List.Pairwise (· < ·) (Distribution.mk [3,7] [10,25,40] [35/2,65/2]
        [15,15] [3/10,7/10] [3/10,1]).oedge ∧
      (Distribution.mk [3,7] [10,25,40] [35/2,65/2] [15,15] [3/10,7/10]
        [3/10,1]).oedge.head? = some (listMin [10,20,20,30,30,30,40,40,40,40]) ∧
      (Distribution.mk [3,7] [10,25,40] [35/2,65/2] [15,15] [3/10,7/10]
        [3/10,1]).oedge.getLast?
          = some (listMax [10,20,20,30,30,30,40,40,40,40])) :=
  ⟨eval_bin_size_d9, eval_dist_d9, C6_edges eval_bin_size_d9 eval_dist_d9⟩

/-! ## Claim C7 -/

/-- C7: for every input on which the pipeline succeeds, the weighted mean
`Σ center·probability` (line 196 of the source, before rounding) lies
between the minimum and the maximum of the raw input values. -/
theorem C7_weighted_mean_in_range {data : List ℚ} {d : Distribution}
    (h : calculate_distribution data = .ok d) :
    listMin data ≤ weightedMean d ∧ weightedMean d ≤ listMax data := by
  obtain ⟨k, hk, rfl, hmm, hne⟩ := dist_ok_facts h
  have hlen : (distributionArrays data k).xdst.length
      = (distributionArrays data k).ydst.length := by
    rw [distributionArrays_xdst_length, distributionArrays_ydst_length]
  have hc := distributionArrays_xdst_bounds (le_of_lt hmm) hk
  have hy := distributionArrays_ydst_nonneg data k
  have hb := zipWith_mul_sum_bounds (listMin data) (listMax data) _ _ hlen hc hy
  rw [distributionArrays_ydst_sum hk hmm hne, mul_one, mul_one] at hb
  exact hb

/-- Witness for C7 at the spec's reference input (weighted mean 28, data
range `[10, 40]`). -/
theorem C7_weighted_mean_in_range_witness :
    calculate_distribution [10,20,20,30,30,30,40,40,40,40]
      = .ok ⟨[3,7], [10,25,40], [35/2,65/2], [15,15], [3/10,7/10], [3/10,1]⟩ ∧
    (listMin [10,20,20,30,30,30,40,40,40,40]
        ≤ weightedMean (Distribution.mk [3,7] [10,25,40] [35/2,65/2] [15,15]
          [3/10,7/10] [3/10,1]) ∧
      weightedMean (Distribution.mk [3,7] [10,25,40] [35/2,65/2] [15,15]
          [3/10,7/10] [3/10,1]) ≤ listMax [10,20,20,30,30,30,40,40,40,40]) :=
  ⟨eval_dist_d9, C7_weighted_mean_in_range eval_dist_d9⟩

/-! ## Claim C8

The claim as frozen — the thresholds equal `mean × 0.8` and `mean × 1.2`
rounded to 2 decimals, "where mean is the weighted mean
Σ(center·probability)" — is false on the code: line 196 rounds the weighted
mean to 2 decimals *before* the multipliers are applied, and the double
rounding is observable.  On `[1,…,7]` the weighted mean is `59/14 ≈ 4.2143`;
the code computes `round2(round2(59/14)·1.2) = round2(4.21·1.2) = 5.05`,
while the claim's formula gives `round2(59/14·1.2) = round2(5.0571…) = 5.06`.
The amended claim applies the multipliers to the *rounded* mean. -/

/-- C8 (counterexample): on `[1,…,7]` the pipeline's upper threshold is
`5.05`, but rounding `weightedMean × 1.2` directly gives `5.06`. -/
theorem C8_counterexample :
    pipelineStats [1, 2, 3, 4, 5, 6, 7] = .ok (421/100, 337/100, 101/20) ∧
    (calculate_distribution [1, 2, 3, 4, 5, 6, 7]).map weightedMean
      = .ok (59/14) ∧
    round2 ((59/14) * (12/10)) = 253/50 ∧
    (101/20 : ℚ) ≠ 253/50 := by
  have hw : weightedMean ⟨[3, 4], [1, 4, 7], [5/2, 11/2], [3, 3],
      [3/7, 4/7], [3/7, 1]⟩ = 59/14 := by
    norm_num [weightedMean, List.zipWith]
  refine ⟨?_, ?_, ?_, by norm_num⟩
  · rw [pipelineStats_of_ok eval_dist_1to7, hw]
    norm_num [round2, roundHalfEven]
  · rw [eval_dist_1to7]
    simp only [Except.map]
    rw [hw]
  · norm_num [round2, roundHalfEven]

/-- C8 (amended): the pipeline's two thresholds equal `xmean × 0.8` and
`xmean × 1.2`, each rounded to 2 decimal places, where `xmean` is the
weighted mean `Σ center·probability` itself rounded to 2 decimal places
(line 196 of the source). -/
theorem C8_amended {data : List ℚ} {d : Distribution}
    (h : calculate_distribution data = .ok d) :
    pipelineStats data = .ok
      (round2 (∑ j ∈ Finset.range d.xdst.length,
          d.xdst.getD j 0 * d.ydst.getD j 0),
       round2 (round2 (∑ j ∈ Finset.range d.xdst.length,
          d.xdst.getD j 0 * d.ydst.getD j 0) * (8 / 10)),
       round2 (round2 (∑ j ∈ Finset.range d.xdst.length,
          d.xdst.getD j 0 * d.ydst.getD j 0) * (12 / 10))) := by
  have hw : weightedMean d = ∑ j ∈ Finset.range d.xdst.length,
      d.xdst.getD j 0 * d.ydst.getD j 0 := by
    obtain ⟨k, hk, rfl, hmm, hne⟩ := dist_ok_facts h
    rw [weightedMean]
    exact zipWith_mul_sum_eq_finset _ _
      (by rw [distributionArrays_xdst_length, distributionArrays_ydst_length])
  rw [pipelineStats_of_ok h, hw]

/-- Witness for C8 (amended) at `[1,…,7]`. -/
theorem C8_amended_witness :
    calculate_distribution [1, 2, 3, 4, 5, 6, 7]
      = .ok ⟨[3, 4], [1, 4, 7], [5/2, 11/2], [3, 3], [3/7, 4/7], [3/7, 1]⟩ ∧
    pipelineStats [1, 2, 3, 4, 5, 6, 7] = .ok
      (round2 (∑ j ∈ Finset.range (Distribution.mk [3, 4] [1, 4, 7]
          [5/2, 11/2] [3, 3] [3/7, 4/7] [3/7, 1]).xdst.length,
          (Distribution.mk [3, 4] [1, 4, 7] [5/2, 11/2] [3, 3] [3/7, 4/7]
            [3/7, 1]).xdst.getD j 0
          * (Distribution.mk [3, 4] [1, 4, 7] [5/2, 11/2] [3, 3] [3/7, 4/7]
            [3/7, 1]).ydst.getD j 0),
       round2 (round2 (∑ j ∈ Finset.range (Distribution.mk [3, 4] [1, 4, 7]
          [5/2, 11/2] [3, 3] [3/7, 4/7] [3/7, 1]).xdst.length,
          (Distribution.mk [3, 4] [1, 4, 7] [5/2, 11/2] [3, 3] [3/7, 4/7]
            [3/7, 1]).xdst.getD j 0
          * (Distribution.mk [3, 4] [1, 4, 7] [5/2, 11/2] [3, 3] [3/7, 4/7]
            [3/7, 1]).ydst.getD j 0) * (8 / 10)),
       round2 (round2 (∑ j ∈ Finset.range (Distribution.mk [3, 4] [1, 4, 7]
          [5/2, 11/2] [3, 3] [3/7, 4/7] [3/7, 1]).xdst.length,
          (Distribution.mk [3, 4] [1, 4, 7] [5/2, 11/2] [3, 3] [3/7, 4/7]
            [3/7, 1]).xdst.getD j 0
          * (Distribution.mk [3, 4] [1, 4, 7] [5/2, 11/2] [3, 3] [3/7, 4/7]
            [3/7, 1]).ydst.getD j 0) * (12 / 10))) :=
  ⟨eval_dist_1to7, C8_amended eval_dist_1to7⟩

/-! ## Claim C9 -/

/-- C9: the numeric pipeline is deterministic — it is a pure function of
the input, with no randomness.  On the spec's reference input
`[10,20,20,30,30,30,40,40,40,40]` it always produces bin count 2, histogram
counts `[3, 7]`, and weighted mean 28 (thresholds 22.4 and 33.6): the
outputs are fixed values, so any two runs on this input agree. -/
theorem C9_deterministic_pipeline :
    calculate_bin_size [10,20,20,30,30,30,40,40,40,40] = .ok 2 ∧
    (calculate_distribution [10,20,20,30,30,30,40,40,40,40]).map
      Distribution.ohist = .ok [3, 7] ∧
    pipelineStats [10,20,20,30,30,30,40,40,40,40] = .ok (28, 112/5, 168/5) := by
  refine ⟨eval_bin_size_d9, ?_, ?_⟩
  · rw [eval_dist_d9]
    rfl
  · rw [pipelineStats_of_ok eval_dist_d9]
    have hw : weightedMean ⟨[3,7], [10,25,40], [35/2,65/2], [15,15],
        [3/10,7/10], [3/10,1]⟩ = 28 := by
      norm_num [weightedMean, List.zipWith]
    rw [hw]
    norm_num [round2, roundHalfEven]

/-! ## Claim C10 -/

/-- C10: the renderer computes the bar width as `xdst[1] − xdst[0]`, so
`plot_distribution` requires at least 2 bins; on the input `[0, 0, 4, 4]`
the computed bin count is 1, `calculate_distribution` succeeds with a
single-entry `xdst`, and the renderer's index access fails (`bar_width`
is `none`). -/
theorem C10_bar_width_requires_two_bins :
    bar_width [] = none ∧ (∀ a : ℚ, bar_width [a] = none) ∧
    (∀ (a b : ℚ) (r : List ℚ), bar_width (a :: b :: r) = some (b - a)) ∧
    calculate_distribution [0, 0, 4, 4] = .ok ⟨[4], [0, 4], [2], [4], [1], [1]⟩ ∧
    (Distribution.mk [4] [0, 4] [2] [4] [1] [1]).xdst.length = 1 ∧
    bar_width (Distribution.mk [4] [0, 4] [2] [4] [1] [1]).xdst = none :=
  ⟨rfl, fun _ => rfl, fun _ _ _ => rfl, eval_dist_0044, rfl, rfl⟩

end SalaryDist
